import Mathlib

/-!
Shallow embedding of the transmission-process-torrents repository.

Two source files carry the behaviour under scrutiny:

* `src/process_torrents/base.py` — the reconciliation pass (`Command.__call__`):
  classification of each torrent against the configured directory rules,
  the orphan sweep over download directories, and the bidirectional
  remote/local path mapping (`Command.get_local_path`,
  `Command.get_remote_path`).
* `hardlink.py` — the recursive hard-link merge engine (`hardlink`,
  `makedirs`, `link`).

The embedding keeps two path representations, mirroring the two abstraction
levels of the source: `base.py` manipulates paths as Python strings (its
matching uses `str.startswith` and `str.replace`, which are character-level
operations), so those paths are `List Char`; `hardlink.py` only ever walks
and joins whole path components via `os.path` operations, so filesystem
paths there are `List String` (one string per component, absolute and
normalized, as produced by `os.path.abspath` at its entry points).

Numeric torrent fields (`percentDone`, `uploadRatio`, `secondsSeeding`,
`ratio`, `seed_days`) are embedded as rationals: the comparisons involved
do not depend on floating-point rounding.
-/

namespace ProcessTorrents

/-- Python str.replace for an empty search string: the replacement is
inserted before every character and once at the end, matching
CPython's behaviour for `s.replace("", new)`. -/
def pyReplaceEmpty (new : List Char) : List Char → List Char
  | [] => new
  | c :: t => new ++ c :: pyReplaceEmpty new t

/-- Fuel-driven worker for Python str.replace with a non-empty search
string: scan left to right, replacing each non-overlapping occurrence.
One unit of fuel is spent per character position, so fuel `s.length`
always suffices. -/
def pyReplaceGo (fuel : Nat) (s old new : List Char) : List Char :=
  match fuel with
  | 0 => s
  | fuel + 1 =>
    match old with
    | [] => s
    | o :: ot =>
      if (o :: ot) <+: s then
        new ++ pyReplaceGo fuel (s.drop (o :: ot).length) (o :: ot) new
      else
        match s with
        | [] => []
        | c :: t => c :: pyReplaceGo fuel t (o :: ot) new

/-- Python `s.replace(old, new)`: every non-overlapping occurrence of
`old` in `s` is replaced by `new`, scanning left to right. This is the
substitution primitive used by `Command.get_local_path` in base.py. -/
def pyReplace (s old new : List Char) : List Char :=
  match old with
  | [] => pyReplaceEmpty new s
  | _ :: _ => pyReplaceGo s.length s old new

/-- Whether `old` occurs as a contiguous substring of `s` (used to state
when `pyReplace` is the identity). -/
def hasSub (old s : List Char) : Bool :=
  if old <+: s then true
  else
    match s with
    | [] => false
    | _ :: t => hasSub old t

/-- Python `os.path.join(a, b)` for string paths: an absolute `b` wins,
otherwise `b` is appended to `a` with a single separator. -/
def pyJoin (a b : List Char) : List Char :=
  match b with
  | '/' :: _ => b
  | _ =>
    match a with
    | [] => b
    | _ => if a.getLast? = some '/' then a ++ b else a ++ '/' :: b

/-- The per-iteration swap performed by `Command.get_local_path` when
`reverse` is set: the pair `(remote_prefix, local_prefix)` is used with
its roles exchanged. -/
def orientPair (reverse : Bool) (pr : List Char × List Char) : List Char × List Char :=
  if reverse then (pr.2, pr.1) else pr

/-- Embedding of `Command.get_local_path` (base.py lines 271-285): scan the
mapped path pairs in configured order; at the first pair whose (oriented)
remote side is a string prefix of the input, return
`remote_path.replace(remote_prefix, local_prefix)`; if no pair matches,
return the input unchanged. -/
def get_local_path (remote_path : List Char)
    (mapped_paths : List (List Char × List Char)) (reverse : Bool) : List Char :=
  match mapped_paths with
  | [] => remote_path
  | hd :: rest =>
    let pr := orientPair reverse hd
    if pr.1 <+: remote_path then pyReplace remote_path pr.1 pr.2
    else get_local_path remote_path rest reverse

/-- Embedding of `Command.get_remote_path` (base.py lines 287-291): the
same scan with the pair roles swapped. -/
def get_remote_path (local_path : List Char)
    (mapped_paths : List (List Char × List Char)) : List Char :=
  get_local_path local_path mapped_paths true

/-- The first (oriented) mapping pair whose source side is a string prefix
of `p` — the specification-level description of which pair
`get_local_path` applies. -/
def findPair (mapped_paths : List (List Char × List Char)) (reverse : Bool)
    (p : List Char) : Option (List Char × List Char) :=
  (mapped_paths.map (orientPair reverse)).find? (fun pr => decide (pr.1 <+: p))

/-- One directory rule from the `torrent_dirs` configuration list
(base.py lines 108-114). `ratio` and `seed_days` are optional. -/
structure DirConfig where
  download_dir : List Char
  post_processing_dir : List Char
  ratio : Option ℚ
  seed_days : Option ℚ
deriving DecidableEq

/-- The torrent fields fetched from Transmission that the classification
logic reads (base.py lines 81-88). -/
structure Torrent where
  name : List Char
  downloadDir : List Char
  percentDone : ℚ
  secondsSeeding : ℚ
  uploadRatio : ℚ
deriving DecidableEq

/-- Association-list lookup for the JSON database mapping remote paths to
their processed flag (`db.get(remote_path)`). -/
def dbGet : List (List Char × Bool) → List Char → Option Bool
  | [], _ => none
  | (k, v) :: rest, key => if k = key then some v else dbGet rest key

/-- Seconds per day, `datetime.timedelta(days=1).total_seconds()`. -/
def DAY_SECONDS : ℚ := 86400

/-- Python truthiness of an optional rational (`None` and `0.0` are
falsy): this governs the `ratio and ...`, `seed_days and ...`
short-circuits in base.py line 126-130. -/
def truthyOpt : Option ℚ → Bool
  | none => false
  | some x => decide (x ≠ 0)

/-- Embedding of the `seeding` flag (base.py lines 126-130):
`bool(ratio and ratio > uploadRatio or seed_days and
seed_days * DAY_SECONDS > secondsSeeding)` with Python truthiness. -/
def seedingFlag (dc : DirConfig) (t : Torrent) : Bool :=
  (truthyOpt dc.ratio && decide ( dc.ratio.getD 0 > t.uploadRatio)) ||
    (truthyOpt dc.seed_days && decide ( dc.seed_days.getD 0 * DAY_SECONDS > t.secondsSeeding))

/-- Spec-side seeding formula, following the claim's words: a threshold
counts as configured whenever the option is present, with no truthiness
exception for a zero value. Stated for comparison with `seedingFlag`. -/
def claimSeedingRequiredMore (dc : DirConfig) (t : Torrent) : Bool :=
  ( dc.ratio.isSome && decide ( dc.ratio.getD 0 > t.uploadRatio)) ||
    ( dc.seed_days.isSome && decide ( dc.seed_days.getD 0 * DAY_SECONDS > t.secondsSeeding))

/-- The action the reconciliation pass chooses for one torrent.
`unmatched` is the for/else fallthrough: no directory rule matched. -/
inductive TAction
  | merge
  | remove
  | noop
  | unmatched
deriving DecidableEq

/-- Embedding of the per-torrent branch of `Command.__call__` (base.py
lines 119-166) once a directory rule has matched: compute `downloaded`,
`processed` and `seeding`, then choose hard-link, removal, or no action. -/
def classify (dc : DirConfig) (db : List (List Char × Bool))
    (remote_path : List Char) (t : Torrent) : TAction :=
  let downloaded := decide (t.percentDone = 1)
  let processed := downloaded && ((dbGet db remote_path).getD false)
  let seeding := seedingFlag dc t
  if downloaded && !processed then .merge
  else if processed && !seeding then .remove
  else .noop

/-- The first directory rule whose `download_dir` is a string prefix of
the torrent's local path (the `for dir_config ... if
local_path.startswith(download_dir): ... break` loop). -/
def findRule (dirs : List DirConfig) (local_path : List Char) : Option DirConfig :=
  dirs.find? (fun dc => decide ( dc.download_dir <+: local_path))

/-- Embedding of the whole per-torrent pass (base.py lines 100-189):
compute the remote path, map it to a local path, find the first matching
directory rule, and classify. -/
def processTorrent (dirs : List DirConfig) (db : List (List Char × Bool))
    (t : Torrent) (mapped_paths : List (List Char × List Char)) : TAction :=
  let remote_path := pyJoin t.downloadDir t.name
  let local_path := get_local_path remote_path mapped_paths false
  match findRule dirs local_path with
  | some dc => classify dc db remote_path t
  | none => .unmatched

/-- Outcome of the orphan sweep for one directory entry (base.py lines
200-248): hidden entries are ignored, entries matched to a found torrent
are skipped, the rest are treated as orphans (carrying their processed
flag, which decides whether they are first merged). -/
inductive EntryOutcome
  | hiddenSkip
  | trackedSkip
  | orphanProcess (processed : Bool)
deriving DecidableEq

/-- Embedding of the per-entry decision of the orphan sweep (base.py lines
200-225): skip names starting with a dot, skip entries some found torrent
path is a string prefix of, and otherwise look up the processed flag under
the reverse-mapped remote path. -/
def entryOutcome (found_torrents : List (List Char)) (db : List (List Char × Bool))
    (mapped_paths : List (List Char × List Char))
    (download_dir entry : List Char) : EntryOutcome :=
  if ['.'] <+: entry then .hiddenSkip
  else
    let local_path := pyJoin download_dir entry
    if found_torrents.any (fun f => decide (f <+: local_path)) then .trackedSkip
    else
      let remote_path := get_remote_path local_path mapped_paths
      .orphanProcess ((dbGet db remote_path).getD false)

/-- Spec-side membership test, following the claim's words: the entry's
local path itself, or a path-level ancestor of it, is present in the found
set. An ancestor of `p` is a path `f` such that `f ++ "/"` begins `p`. -/
def inFoundOrAncestor (found_torrents : List (List Char)) (p : List Char) : Prop :=
  p ∈ found_torrents ∨ ∃ f ∈ found_torrents, f ++ ['/'] <+: p

instance (found_torrents : List (List Char)) (p : List Char) :
    Decidable (inFoundOrAncestor found_torrents p) := by
  unfold inFoundOrAncestor
  infer_instance

end ProcessTorrents

namespace Hardlink

/-- A filesystem path as a list of components, absolute and normalized
(as produced by `os.path.abspath` at the entry of `hardlink`). The root
directory is the empty list. -/
abbrev Path := List String

/-- A filesystem node. Regular files carry the device they live on and an
inode identity (hard links are extra paths to the same inode); directories
carry their device; symbolic links carry their target path. -/
inductive Node
  | file (dev ino : Nat)
  | dir (dev : Nat)
  | symlink (target : Path)
deriving DecidableEq

/-- A filesystem: a finite association of paths to nodes. Lookup takes the
first binding; concrete filesystems are kept duplicate-free. The model
resolves symbolic links only where a looked-up path itself is bound to a
`symlink` node. -/
structure FS where
  entries : List (Path × Node)
deriving DecidableEq

/-- First-match association-list lookup. -/
def lookupEntries : List (Path × Node) → Path → Option Node
  | [], _ => none
  | (q, n) :: rest, p => if q = p then some n else lookupEntries rest p

/-- The node bound at `p`, without following a symlink at `p`
(`os.lstat` view). -/
def FS.lookup (fs : FS) (p : Path) : Option Node :=
  lookupEntries fs.entries p

/-- Remove the binding at `p` (`os.remove`). -/
def FS.remove (fs : FS) (p : Path) : FS :=
  ⟨fs.entries.filter (fun e => !decide (e.1 = p))⟩

/-- Bind `p` to `n`, replacing any previous binding. -/
def FS.insert (fs : FS) (p : Path) (n : Node) : FS :=
  ⟨(p, n) :: (fs.remove p).entries⟩

/-- Follow symlink nodes starting at `p`, with fuel bounding the chain
length; returns the final path and its non-symlink node. -/
def resolveN : Nat → FS → Path → Option (Path × Node)
  | 0, _, _ => none
  | fuel + 1, fs, p =>
    match fs.lookup p with
    | some (.symlink t) => resolveN fuel fs t
    | some n => some (p, n)
    | none => none

/-- Resolve `p` through any chain of symlink nodes. -/
def FS.resolve (fs : FS) (p : Path) : Option (Path × Node) :=
  resolveN (fs.entries.length + 1) fs p

/-- Follow symlink nodes as far as possible, keeping the last path even if
it is unbound (`os.path.realpath`). -/
def realpathN : Nat → FS → Path → Path
  | 0, _, p => p
  | fuel + 1, fs, p =>
    match fs.lookup p with
    | some (.symlink t) => realpathN fuel fs t
    | _ => p

/-- Embedding of `os.path.realpath`. -/
def FS.realpath (fs : FS) (p : Path) : Path :=
  realpathN (fs.entries.length + 1) fs p

/-- Embedding of `os.path.exists` (follows symlinks). -/
def existsF (fs : FS) (p : Path) : Bool :=
  ( fs.resolve p).isSome

/-- Embedding of `os.path.isdir` (follows symlinks). -/
def isdirF (fs : FS) (p : Path) : Bool :=
  match fs.resolve p with
  | some (_, .dir _) => true
  | _ => false

/-- Embedding of `os.path.isfile` (follows symlinks). -/
def isfileF (fs : FS) (p : Path) : Bool :=
  match fs.resolve p with
  | some (_, .file _ _) => true
  | _ => false

/-- Embedding of `os.path.islink`. -/
def islinkF (fs : FS) (p : Path) : Bool :=
  match fs.lookup p with
  | some (.symlink _) => true
  | _ => false

/-- The errno values the modelled syscalls can produce. -/
inductive Errno
  | EEXIST
  | ENOENT
  | ENOTDIR
  | EXDEV
  | EPERM
deriving DecidableEq

/-- The warning lines `hardlink.py` can emit via `warn`. -/
inductive Msg
  | cannotReplaceFileWithDir (p : Path)
  | cannotReplaceDirWithFile (p : Path)
  | noSuchFile (p : Path)
  | cannotLinkSelf (p : Path)
  | alreadyExists (p : Path)
deriving DecidableEq

/-- How a run of the script can abort: an uncaught `OSError`, the
script's `err` helper (which exits with status 1), or fuel exhaustion of
the modelled directory walk (the Python walk has no such bound; a
fuel-out result stands for a run that was truncated by the model). -/
inductive Err
  | os (e : Errno)
  | exit1 (m : Msg)
  | fuel
deriving DecidableEq

/-- Mutable state threaded through the script: the filesystem and the
warnings emitted so far. -/
structure St where
  fs : FS
  warns : List Msg
deriving DecidableEq

/-- Whether control is still flowing normally or an abort is
propagating. -/
inductive Out
  | ok
  | fatal (e : Err)
deriving DecidableEq

/-- Result of a step: outcome plus the state it left behind (the state is
kept even on abort, since a Python exception does not undo side
effects). -/
structure R where
  out : Out
  st : St
deriving DecidableEq

/-- The node an `os.link(src, dst)` call would bind at `dst`, or the errno
it fails with: the destination's parent must resolve to a directory on the
same device as a regular-file source; like `link(2)` on Linux, a symlink
source is linked as a symlink, and a directory source is refused. -/
def linkNode (fs : FS) (src dst : Path) : Except Errno Node :=
  match fs.lookup src with
  | none => .error .ENOENT
  | some (.dir _) => .error .EPERM
  | some (.symlink t) =>
    match fs.resolve dst.dropLast with
    | some (_, .dir _) => .ok (.symlink t)
    | some _ => .error .ENOTDIR
    | none => .error .ENOENT
  | some (.file d i) =>
    match fs.resolve dst.dropLast with
    | some (_, .dir pd) => if d = pd then .ok (.file d i) else .error .EXDEV
    | some _ => .error .ENOTDIR
    | none => .error .ENOENT

/-- Embedding of `os.link`: fails with EEXIST when anything is bound at
`dst`, otherwise creates the link when `linkNode` allows it. -/
def osLink (fs : FS) (src dst : Path) : Except Errno FS :=
  if ( fs.lookup dst).isSome then .error .EEXIST
  else
    match linkNode fs src dst with
    | .ok n => .ok (fs.insert dst n)
    | .error e => .error e

/-- Worker for `os.makedirs`: create each missing component along the
path, left to right; an existing non-directory component fails with
ENOTDIR; a created directory inherits its parent's device. -/
def osMakedirsAux (fs : FS) : List String → Path → Except Errno FS
  | [], _ => .ok fs
  | c :: rest, done =>
    match fs.resolve (done ++ [c]) with
    | some (_, .dir _) => osMakedirsAux fs rest (done ++ [c])
    | some _ => .error .ENOTDIR
    | none =>
      match fs.resolve done with
      | some (_, .dir d) => osMakedirsAux (fs.insert (done ++ [c]) (.dir d)) rest (done ++ [c])
      | _ => .error .ENOENT

/-- Embedding of `os.makedirs`: EEXIST when the full path is already
bound, otherwise create all missing directories along it. -/
def osMakedirs (fs : FS) (p : Path) : Except Errno FS :=
  if ( fs.lookup p).isSome then .error .EEXIST
  else osMakedirsAux fs p []

/-- Embedding of the script's `makedirs` helper (hardlink.py lines 17-34):
call `os.makedirs`, swallow EEXIST/ENOTDIR (re-raising anything else),
and when the path still is not a directory warn for each non-directory
element among `os.path.split(path)`'s two bits (the dirname and the full
path). Returns whether a directory was created, paired with the step
result — the script's callers ignore this boolean. -/
def makedirsScript (st : St) (p : Path) : R × Bool :=
  match osMakedirs st.fs p with
  | .ok fs2 => (⟨.ok, fs2, st.warns⟩, true)
  | .error e =>
    if e = .EEXIST ∨ e = .ENOTDIR then
      if isdirF st.fs p then (⟨.ok, st⟩, false)
      else
        let w1 := if isdirF st.fs p.dropLast then [] else [Msg.cannotReplaceFileWithDir p.dropLast]
        (⟨.ok, st.fs, st.warns ++ w1 ++ [Msg.cannotReplaceFileWithDir p]⟩, false)
    else (⟨.fatal (.os e), st⟩, false)

/-- Embedding of the script's `link` helper (hardlink.py lines 89-103):
try `os.link`; on EEXIST with `force` remove the destination and retry
once, re-raising a failure of the retry; on EEXIST without `force` warn;
re-raise any non-EEXIST error. -/
def pyLink (st : St) (src dst : Path) (force : Bool) : R :=
  match osLink st.fs src dst with
  | .ok fs2 => ⟨.ok, fs2, st.warns⟩
  | .error e =>
    if e = .EEXIST then
      if force then
        let fs1 := st.fs.remove dst
        match osLink fs1 src dst with
        | .ok fs2 => ⟨.ok, fs2, st.warns⟩
        | .error e2 => ⟨.fatal (.os e2), fs1, st.warns⟩
      else ⟨.ok, st.fs, st.warns ++ [Msg.alreadyExists dst]⟩
    else ⟨.fatal (.os e), st⟩

/-- The names of the entries directly inside directory `p`. -/
def childNames (fs : FS) (p : Path) : List String :=
  fs.entries.filterMap (fun e =>
    if e.1.length = p.length + 1 && decide (e.1.dropLast = p) then e.1.getLast? else none)

/-- The directory loop of the walk body (hardlink.py lines 55-59): for
each subdirectory name, normalize a symlinked destination directory away
and ensure the destination directory exists. -/
def dirsLoop (dst rel : Path) : St → List String → R
  | st, [] => ⟨.ok, st⟩
  | st, d :: rest =>
    let dstpath := dst ++ rel ++ [d]
    let st1 : St :=
      if isdirF st.fs dstpath && islinkF st.fs dstpath then ⟨st.fs.remove dstpath, st.warns⟩
      else st
    let m := makedirsScript st1 dstpath
    match m.1.out with
    | .fatal _ => m.1
    | .ok => dirsLoop dst rel m.1.st rest

/-- The file loop of the walk body (hardlink.py lines 61-78): resolve the
source through symlinks, skip vanished sources, self-links and directory
destinations, normalize a symlinked destination file away, ensure the
destination's parent directory, and hard-link. -/
def filesLoop (src dst rel : Path) (force : Bool) : St → List String → R
  | st, [] => ⟨.ok, st⟩
  | st, f :: rest =>
    let srcfile := st.fs.realpath (src ++ rel ++ [f])
    let dstfile := dst ++ rel ++ [f]
    if !existsF st.fs srcfile then
      filesLoop src dst rel force ⟨st.fs, st.warns ++ [Msg.noSuchFile srcfile]⟩ rest
    else if srcfile = dstfile then
      filesLoop src dst rel force ⟨st.fs, st.warns ++ [Msg.cannotLinkSelf srcfile]⟩ rest
    else if isdirF st.fs dstfile then
      filesLoop src dst rel force ⟨st.fs, st.warns ++ [Msg.cannotReplaceDirWithFile dstfile]⟩ rest
    else
      let st1 : St :=
        if isfileF st.fs dstfile && islinkF st.fs dstfile then ⟨st.fs.remove dstfile, st.warns⟩
        else st
      let m := makedirsScript st1 dstfile.dropLast
      match m.1.out with
      | .fatal _ => m.1
      | .ok =>
        let r := pyLink m.1.st srcfile dstfile force
        match r.out with
        | .fatal _ => r
        | .ok => filesLoop src dst rel force r.st rest

/-- A pending piece of the lazy `os.walk` over the source tree: either
visit the directory at `rel` (list it, run both loops, then descend), or
descend into the remaining listed subdirectories of `rel` in order. -/
inductive Job
  | enter (rel : Path)
  | childs (rel : Path) (ds : List String)

/-- Embedding of the `os.walk('.', followlinks=True)` loop of `hardlink`
(hardlink.py lines 53-78), top-down and lazy: each directory is listed
when visited, its subdirectory and file loops run, and then its listed
subdirectories are visited in order. Fuel bounds the recursion depth;
the Python original has no bound and can descend forever when the
destination lies inside the source. -/
def walkGo (src dst : Path) (force : Bool) : Nat → St → Job → R
  | 0, st, _ => ⟨.fatal .fuel, st⟩
  | _ + 1, st, .childs _ [] => ⟨.ok, st⟩
  | fuel + 1, st, .childs rel (d :: rest) =>
    let r := walkGo src dst force fuel st (.enter (rel ++ [d]))
    match r.out with
    | .fatal _ => r
    | .ok => walkGo src dst force fuel r.st (.childs rel rest)
  | fuel + 1, st, .enter rel =>
    let names := childNames st.fs (src ++ rel)
    let dirs := names.filter (fun n => isdirF st.fs (src ++ rel ++ [n]))
    let files := names.filter (fun n => !isdirF st.fs (src ++ rel ++ [n]))
    let r1 := dirsLoop dst rel st dirs
    match r1.out with
    | .fatal _ => r1
    | .ok =>
      let r2 := filesLoop src dst rel force r1.st files
      match r2.out with
      | .fatal _ => r2
      | .ok => walkGo src dst force fuel r2.st (.childs rel dirs)

/-- Embedding of `hardlink(src, dst, force)` (hardlink.py lines 37-86):
fatal if the source does not exist; when the source is a directory, refuse
a plain-file destination and run the walk; when (afterwards) the source is
a file, refuse a directory destination, ensure the destination's parent
directory and link. `src` and `dst` are taken already absolute and
normalized. -/
def pyHardlink (fuel : Nat) (st : St) (src dst : Path) (force : Bool) : R :=
  if !existsF st.fs src then ⟨.fatal (.exit1 (.noSuchFile src)), st⟩
  else
    let r1 :=
      if isdirF st.fs src then
        if isfileF st.fs dst then ⟨.fatal (.exit1 (.cannotReplaceFileWithDir dst)), st⟩
        else walkGo src dst force fuel st (.enter [])
      else ⟨.ok, st⟩
    match r1.out with
    | .fatal _ => r1
    | .ok =>
      if isfileF r1.st.fs src then
        if isdirF r1.st.fs dst then ⟨.fatal (.exit1 (.cannotReplaceDirWithFile dst)), r1.st⟩
        else
          let m := makedirsScript r1.st dst.dropLast
          match m.1.out with
          | .fatal _ => m.1
          | .ok => pyLink m.1.st src dst force
      else r1

/-- Two paths are apart when neither is a component-prefix of the other:
their subtrees are disjoint. -/
def Apart (p q : Path) : Prop :=
  ¬ p <+: q ∧ ¬ q <+: p

/-- Concrete filesystem for the C4 scenario: `/m` lives on device 1,
`/d` on device 0, and `/d/g` already exists. -/
def c4fs : FS :=
  ⟨[([], .dir 0), (["d"], .dir 0), (["m"], .dir 1), (["m", "f"], .file 1 7),
    (["d", "g"], .file 0 8)]⟩

/-- Concrete filesystem for the C5 scenario: source file `/a` and an
already existing destination file `/d/b`. -/
def c5fs : FS :=
  ⟨[([], .dir 0), (["d"], .dir 0), (["a"], .file 0 1), (["d", "b"], .file 0 2)]⟩

/-- Concrete filesystem for the C8 scenario: source tree `/s/x/f` and a
destination `/d` in which `/d/x` already exists as a plain file, blocking
creation of the destination directory `/d/x`. -/
def c8fs : FS :=
  ⟨[([], .dir 0), (["d"], .dir 0), (["d", "x"], .file 0 9),
    (["s"], .dir 0), (["s", "x"], .dir 0), (["s", "x", "f"], .file 0 1)]⟩

/-- Concrete filesystem for the C9 counterexample: a single regular file
`/a/f`. -/
def c9fs : FS :=
  ⟨[([], .dir 0), (["a"], .dir 0), (["a", "f"], .file 0 1)]⟩

/-- Concrete filesystem for the C9 witness: disjoint source tree `/s`
and destination `/d`. -/
def c9wfs : FS :=
  ⟨[([], .dir 0), (["s"], .dir 0), (["s", "f"], .file 0 3), (["d"], .dir 0)]⟩

end Hardlink

namespace ProcessTorrents

/-- Changing the fuel of `pyReplaceGo` does not change its value once the
fuel covers the string length. -/
theorem pyReplaceGo_fuel_irrel (old new : List Char) :
    ∀ f1 f2 s, old ≠ [] → s.length ≤ f1 → s.length ≤ f2 →
      pyReplaceGo f1 s old new = pyReplaceGo f2 s old new := by
  intro f1
  induction f1 with
  | zero =>
    intro f2 s hne h1 _
    have hs : s = [] := List.eq_nil_of_length_eq_zero (Nat.le_zero.mp h1)
    subst hs
    match old, hne with
    | o :: ot, _ =>
      cases f2 with
      | zero => rfl
      | succ f2 => simp [pyReplaceGo]
  | succ f1 ih =>
    intro f2 s hne h1 h2
    match old, hne with
    | o :: ot, _ =>
      cases f2 with
      | zero =>
        have hs : s = [] := List.eq_nil_of_length_eq_zero (Nat.le_zero.mp h2)
        subst hs
        simp [pyReplaceGo]
      | succ f2 =>
        simp only [pyReplaceGo]
        by_cases hpre : (o :: ot) <+: s
        · simp only [if_pos hpre]
          have hl := hpre.length_le
          simp only [List.length_cons] at hl
          have hd : (s.drop (o :: ot).length).length ≤ f1 := by
            simp only [List.length_drop, List.length_cons]
            omega
          have hd2 : (s.drop (o :: ot).length).length ≤ f2 := by
            simp only [List.length_drop, List.length_cons]
            omega
          rw [ih f2 _ (by simp) hd hd2]
        · simp only [if_neg hpre]
          cases s with
          | nil => rfl
          | cons c t =>
            have ht : t.length ≤ f1 := by simp at h1; omega
            have ht2 : t.length ≤ f2 := by simp at h2; omega
            show c :: pyReplaceGo f1 t (o :: ot) new = c :: pyReplaceGo f2 t (o :: ot) new
            rw [ih f2 _ (by simp) ht ht2]

/-- When the search string begins the input, `pyReplace` substitutes it
and continues on the tail. -/
theorem pyReplace_append_left (r s l : List Char) (hr : r ≠ []) :
    pyReplace (r ++ s) r l = l ++ pyReplace s r l := by
  match r, hr with
  | o :: ot, _ =>
    show pyReplaceGo ((o :: ot) ++ s).length ((o :: ot) ++ s) (o :: ot) l =
      l ++ pyReplaceGo s.length s (o :: ot) l
    have hlen : ((o :: ot) ++ s).length = (ot.length + s.length) + 1 := by
      simp only [List.length_append, List.length_cons]
      omega
    rw [hlen]
    simp only [pyReplaceGo, if_pos (List.prefix_append (o :: ot) s)]
    rw [List.drop_left (o :: ot) s]
    rw [pyReplaceGo_fuel_irrel (o :: ot) l (ot.length + s.length) s.length s
      (by simp) (by omega) (le_refl _)]

/-- A string with no occurrence of the search string is left unchanged by
`pyReplaceGo`. -/
theorem pyReplaceGo_of_not_hasSub (old new : List Char) :
    ∀ fuel s, old ≠ [] → hasSub old s = false → pyReplaceGo fuel s old new = s := by
  intro fuel
  induction fuel with
  | zero => intro s _ _; rfl
  | succ fuel ih =>
    intro s hne hsub
    match old, hne with
    | o :: ot, _ =>
      unfold hasSub at hsub
      by_cases hpre : (o :: ot) <+: s
      · rw [if_pos hpre] at hsub
        exact absurd hsub (by simp)
      · rw [if_neg hpre] at hsub
        simp only [pyReplaceGo, if_neg hpre]
        cases s with
        | nil => rfl
        | cons c t =>
          show c :: pyReplaceGo fuel t (o :: ot) new = c :: t
          rw [ih t (by simp) hsub]

/-- A string with no occurrence of the search string is left unchanged by
`pyReplace`. -/
theorem pyReplace_of_not_hasSub (s old new : List Char) (hne : old ≠ [])
    (hsub : hasSub old s = false) : pyReplace s old new = s := by
  match old, hne with
  | o :: ot, _ =>
    show pyReplaceGo s.length s (o :: ot) new = s
    exact pyReplaceGo_of_not_hasSub (o :: ot) new s.length s (by simp) hsub

/-- The mapping scan of `get_local_path` applies the substitution of
exactly the first pair whose (oriented) source side is a prefix of the
input, and passes unmatched inputs through unchanged. -/
theorem get_local_path_eq_findPair (p : List Char)
    (mps : List (List Char × List Char)) (rev : Bool) :
    get_local_path p mps rev =
      match findPair mps rev p with
      | some pr => pyReplace p pr.1 pr.2
      | none => p := by
  induction mps with
  | nil => rfl
  | cons hd rest ih =>
    simp only [get_local_path, findPair, List.map_cons, List.find?_cons]
    by_cases hpre : (orientPair rev hd).1 <+: p
    · simp [hpre]
    · simp only [hpre, decide_eq_false_iff_not.mpr hpre]
      exact ih

/-- C6: for every input path, `get_local_path` (and symmetrically
`get_remote_path`) scans the mapping pairs in configured order and applies
the substitution of the first pair whose source prefix matches only; if no
prefix matches, the input path is returned unchanged. -/
theorem c6_first_prefix_match (p : List Char) (mps : List (List Char × List Char)) :
    (get_local_path p mps false =
      match findPair mps false p with
      | some pr => pyReplace p pr.1 pr.2
      | none => p) ∧
    (get_remote_path p mps =
      match findPair mps true p with
      | some pr => pyReplace p pr.1 pr.2
      | none => p) :=
  ⟨get_local_path_eq_findPair p mps false, get_local_path_eq_findPair p mps true⟩

/-- C7 counterexample: with the single mapping pair ("a", "b"), the remote
path "ab" matches the pair, maps locally to "bb" (str.replace replaces
every occurrence, not only the leading one), and maps back to "aa" ≠ "ab":
the two directions are not inverses on this matched path. -/
theorem c7_counterexample :
    (['a'] <+: ['a', 'b']) ∧
      get_remote_path (get_local_path ['a', 'b'] [(['a'], ['b'])] false)
        [(['a'], ['b'])] ≠ ['a', 'b'] := by
  decide

/-- C7 amended: the two mapping directions are exact inverses over a
matched path provided the substitution really is a prefix substitution
(the matched remote prefix does not re-occur in the path's tail, nor does
the substituted local prefix), and the reverse scan first-matches the same
pair on the mapped path. -/
theorem c7_roundtrip (mps : List (List Char × List Char)) (p r l s : List Char)
    (hfind : findPair mps false p = some (r, l))
    (hp : p = r ++ s)
    (hr : r ≠ []) (hl : l ≠ [])
    (hrs : hasSub r s = false) (hls : hasSub l s = false)
    (hback : findPair mps true (l ++ s) = some (l, r)) :
    get_remote_path (get_local_path p mps false) mps = p := by
  have h1 : get_local_path p mps false = l ++ s := by
    rw [get_local_path_eq_findPair, hfind, hp]
    show pyReplace (r ++ s) r l = l ++ s
    rw [pyReplace_append_left r s l hr, pyReplace_of_not_hasSub s r l hr hrs]
  rw [h1]
  show get_local_path (l ++ s) mps true = p
  rw [get_local_path_eq_findPair, hback]
  show pyReplace (l ++ s) l r = p
  rw [pyReplace_append_left l s r hl, pyReplace_of_not_hasSub s l r hl hls, hp]

/-- C7 witness: the amended round trip at the mapping [("a", "c")] and the
matched remote path "ab". -/
theorem c7_roundtrip_witness :
    findPair [(['a'], ['c'])] false ['a', 'b'] = some (['a'], ['c']) ∧
      get_remote_path (get_local_path ['a', 'b'] [(['a'], ['c'])] false)
        [(['a'], ['c'])] = ['a', 'b'] :=
  ⟨by decide,
    c7_roundtrip [(['a'], ['c'])] ['a', 'b'] ['a'] ['c'] ['b'] (by decide) (by decide)
      (by decide) (by decide) (by decide) (by decide) (by decide)⟩

/-- C1 amended: for a torrent whose local path matches a directory rule,
exactly one of merge, remove and no-op is chosen; merge is chosen exactly
when the torrent is fully downloaded and not marked in the store, remove
exactly when it is fully downloaded, marked in the store and its seeding
requirement is satisfied (the `processed` flag the code computes requires
`percentDone == 1` besides the store record), and no-op otherwise. -/
theorem c1_action_table (dirs : List DirConfig) (db : List (List Char × Bool))
    (t : Torrent) (mps : List (List Char × List Char)) (dc : DirConfig)
    (h : findRule dirs (get_local_path (pyJoin t.downloadDir t.name) mps false) = some dc) :
    (processTorrent dirs db t mps = .merge ∨ processTorrent dirs db t mps = .remove ∨
      processTorrent dirs db t mps = .noop) ∧
    (processTorrent dirs db t mps = .merge ↔
      (t.percentDone = 1 ∧
        ¬ (dbGet db (pyJoin t.downloadDir t.name)).getD false = true)) ∧
    (processTorrent dirs db t mps = .remove ↔
      (t.percentDone = 1 ∧ (dbGet db (pyJoin t.downloadDir t.name)).getD false = true ∧
        seedingFlag dc t = false)) ∧
    (processTorrent dirs db t mps = .noop ↔
      (¬ (t.percentDone = 1 ∧ ¬ (dbGet db (pyJoin t.downloadDir t.name)).getD false = true) ∧
        ¬ (t.percentDone = 1 ∧ (dbGet db (pyJoin t.downloadDir t.name)).getD false = true ∧
          seedingFlag dc t = false))) := by
  simp only [processTorrent, h]
  unfold classify
  by_cases hd : t.percentDone = 1 <;>
    cases hb : (dbGet db (pyJoin t.downloadDir t.name)).getD false <;>
    cases hs : seedingFlag dc t <;>
    simp [hd, hb, hs]

/-- C10: a torrent whose completion fraction is not 1 is never classified
for removal, whatever the store contains. -/
theorem c10_no_remove_incomplete (dirs : List DirConfig) (db : List (List Char × Bool))
    (t : Torrent) (mps : List (List Char × List Char)) (h : t.percentDone ≠ 1) :
    processTorrent dirs db t mps ≠ .remove := by
  simp only [processTorrent]
  rcases hf : findRule dirs (get_local_path (pyJoin t.downloadDir t.name) mps false) with _ | dc <;>
    simp [hf, classify, h]

/-- C2 amended: the seeding requirement is satisfied (the code's `seeding`
flag is false, so a processed item is eligible for removal) exactly when
no configured and nonzero ratio threshold exceeds the upload ratio and no
configured and nonzero seed-days threshold exceeds the seconds seeded; a
zero-valued threshold is falsy in Python and counts as unconfigured. -/
theorem c2_seeding_iff (dc : DirConfig) (t : Torrent) :
    seedingFlag dc t = false ↔
      ¬ ((∃ r, dc.ratio = some r ∧ r ≠ 0 ∧ r > t.uploadRatio) ∨
        (∃ d, dc.seed_days = some d ∧ d ≠ 0 ∧ d * DAY_SECONDS > t.secondsSeeding)) := by
  unfold seedingFlag truthyOpt
  rcases hr : dc.ratio with _ | r <;> rcases hs : dc.seed_days with _ | d <;>
    simp [hr, hs, Bool.or_eq_false_iff, Bool.and_eq_false_iff, decide_eq_false_iff_not]

/-- C3 amended: a directory entry is treated as an orphan exactly when it
is not hidden and no found-torrent path is a string prefix of its local
path (string prefix, not equality-or-ancestry), and it is skipped as
tracked exactly when it is not hidden and some found-torrent path is a
string prefix of its local path. -/
theorem c3_orphan_iff (found_torrents : List (List Char)) (db : List (List Char × Bool))
    (mps : List (List Char × List Char)) (download_dir entry : List Char) :
    ((∃ b, entryOutcome found_torrents db mps download_dir entry = .orphanProcess b) ↔
      (¬ ['.'] <+: entry ∧ ∀ f ∈ found_torrents, ¬ f <+: pyJoin download_dir entry)) ∧
    (entryOutcome found_torrents db mps download_dir entry = .trackedSkip ↔
      (¬ ['.'] <+: entry ∧ ∃ f ∈ found_torrents, f <+: pyJoin download_dir entry)) := by
  unfold entryOutcome
  by_cases hh : ['.'] <+: entry
  · simp [hh]
  · by_cases ha : found_torrents.any
        (fun f => decide (f <+: pyJoin download_dir entry)) = true
    · simp only [List.any_eq_true, decide_eq_true_eq] at ha
      simp [hh, ha]
    · simp only [Bool.not_eq_true, List.any_eq_false, decide_eq_true_eq] at ha
      have hne : ¬ ∃ f ∈ found_torrents, f <+: pyJoin download_dir entry := by
        rintro ⟨f, hf, hp⟩
        exact ha f hf hp
      simp [hh, hne]
      exact ha

/-- C1 counterexample: a torrent at 0% completion whose remote path is
marked processed in the store, against a rule with no ratio and no
seed-days threshold: the claim's truth table (marked processed and seeding
requirement satisfied) selects remove, but the code takes no action. -/
theorem c1_counterexample :
    findRule [⟨['/', 'r'], [], none, none⟩]
        (get_local_path (pyJoin ['/', 'r'] ['n']) [] false) =
      some ⟨['/', 'r'], [], none, none⟩ ∧
    (dbGet [(['/', 'r', '/', 'n'], true)] (pyJoin ['/', 'r'] ['n'])).getD false = true ∧
    claimSeedingRequiredMore ⟨['/', 'r'], [], none, none⟩
      ⟨['n'], ['/', 'r'], 0, 0, 0⟩ = false ∧
    processTorrent [⟨['/', 'r'], [], none, none⟩] [(['/', 'r', '/', 'n'], true)]
      ⟨['n'], ['/', 'r'], 0, 0, 0⟩ [] = .noop := by
  decide

/-- C1 witness: a fully downloaded, unmarked torrent matching a rule is
classified for merge. -/
theorem c1_action_table_witness :
    findRule [⟨['/', 'r'], [], none, none⟩]
        (get_local_path (pyJoin ['/', 'r'] ['n']) [] false) =
      some ⟨['/', 'r'], [], none, none⟩ ∧
    processTorrent [⟨['/', 'r'], [], none, none⟩] [] ⟨['n'], ['/', 'r'], 1, 0, 0⟩ [] = .merge :=
  ⟨by decide,
    ((c1_action_table [⟨['/', 'r'], [], none, none⟩] [] ⟨['n'], ['/', 'r'], 1, 0, 0⟩ []
      ⟨['/', 'r'], [], none, none⟩ (by decide)).2.1).mpr (by decide)⟩

/-- C2 counterexample: a rule configured with ratio 0 against a torrent
whose upload ratio is -1 (Transmission reports -1 when nothing was
downloaded): the claim's formula says seeding is still required (0 > -1
with ratio configured), but the code's truthiness treats the zero
threshold as absent and deems the requirement satisfied. -/
theorem c2_counterexample :
    seedingFlag ⟨['/', 'r'], [], some 0, none⟩ ⟨['n'], ['/', 'r'], 1, 0, -1⟩ = false ∧
    claimSeedingRequiredMore ⟨['/', 'r'], [], some 0, none⟩
      ⟨['n'], ['/', 'r'], 1, 0, -1⟩ = true := by
  decide

/-- C2 witness: with neither ratio nor seed-days configured the seeding
requirement is immediately satisfied. -/
theorem c2_seeding_iff_witness :
    seedingFlag ⟨['/', 'r'], [], none, none⟩ ⟨['n'], ['/', 'r'], 1, 0, 0⟩ = false :=
  (c2_seeding_iff ⟨['/', 'r'], [], none, none⟩ ⟨['n'], ['/', 'r'], 1, 0, 0⟩).mpr (by decide)

/-- C3 counterexample: with found set {"/d/ab"} the entry "abc" under
"/d" is skipped as tracked (string-prefix match against the sibling
"/d/ab"), although neither the entry's path nor any ancestor of it is in
the found set — the claim would make it an orphan. -/
theorem c3_counterexample :
    entryOutcome [['/', 'd', '/', 'a', 'b']] [] [] ['/', 'd'] ['a', 'b', 'c'] =
      .trackedSkip ∧
    ¬ inFoundOrAncestor [['/', 'd', '/', 'a', 'b']] (pyJoin ['/', 'd'] ['a', 'b', 'c']) := by
  decide

/-- C10 witness: an incomplete torrent marked in the store is not
removed. -/
theorem c10_no_remove_incomplete_witness :
    ((0 : ℚ) ≠ 1) ∧
    processTorrent [⟨['/', 'r'], [], none, none⟩] [(['/', 'r', '/', 'n'], true)]
      ⟨['n'], ['/', 'r'], 0, 0, 0⟩ [] ≠ .remove :=
  ⟨by decide,
    c10_no_remove_incomplete [⟨['/', 'r'], [], none, none⟩] [(['/', 'r', '/', 'n'], true)]
      ⟨['n'], ['/', 'r'], 0, 0, 0⟩ [] (by decide)⟩

end ProcessTorrents

namespace Hardlink

/-- Lookup in a filtered entry list: filtering out one path removes
exactly that binding. -/
theorem lookupEntries_filter_ne (l : List (Path × Node)) (p q : Path) :
    lookupEntries (l.filter (fun e => !decide (e.1 = p))) q =
      if p = q then none else lookupEntries l q := by
  induction l with
  | nil => cases hpq : decide (p = q) <;> simp_all [lookupEntries]
  | cons e rest ih =>
    obtain ⟨k, v⟩ := e
    by_cases hk : k = p
    · subst hk
      by_cases hpq : k = q
      · subst hpq
        simp [List.filter_cons, lookupEntries, ih]
      · simp [List.filter_cons, lookupEntries, ih, hpq]
    · by_cases hkq : k = q
      · subst hkq
        have hpq : p ≠ k := fun h => hk h.symm
        simp [List.filter_cons, lookupEntries, hk, hpq]
      · simp [List.filter_cons, lookupEntries, hk, hkq, ih]

/-- Lookup after `FS.remove`. -/
theorem lookup_remove (fs : FS) (p q : Path) :
    (fs.remove p).lookup q = if p = q then none else fs.lookup q :=
  lookupEntries_filter_ne fs.entries p q

/-- Lookup after `FS.insert`. -/
theorem lookup_insert (fs : FS) (p : Path) (n : Node) (q : Path) :
    (fs.insert p n).lookup q = if p = q then some n else fs.lookup q := by
  show lookupEntries ((p, n) :: (fs.remove p).entries) q = _
  by_cases hpq : p = q
  · simp [lookupEntries, hpq]
  · simp only [lookupEntries, if_neg hpq]
    exact (lookup_remove fs p q).trans (if_neg hpq)

/-- A nonempty path differs from its own dirname. -/
theorem dropLast_ne_self (p : Path) (h : p ≠ []) : p.dropLast ≠ p := by
  intro he
  have := congrArg List.length he
  simp only [List.length_dropLast] at this
  have hp : 0 < p.length := List.length_pos.mpr h
  omega

/-- A path apart from `dst` is no prefix of anything in the destination
subtree. -/
theorem apart_not_prefix_append (dst q : Path) (h : Apart dst q) (r : Path) :
    ¬ q <+: dst ++ r := by
  intro hp
  rcases List.prefix_or_prefix_of_prefix hp (List.prefix_append dst r) with h1 | h1
  · exact h.2 h1
  · exact h.1 h1

/-- A path apart from `dst` is not itself in the destination subtree. -/
theorem apart_ne_append (dst q : Path) (h : Apart dst q) (r : Path) :
    q ≠ dst ++ r := by
  intro he
  exact apart_not_prefix_append dst q h r (he ▸ List.prefix_refl q)

/-- `osMakedirsAux` only creates bindings along the path it is building. -/
theorem osMakedirsAux_lookup :
    ∀ (todo : List String) (done : Path) (fs fs2 : FS),
      osMakedirsAux fs todo done = .ok fs2 →
      ∀ q : Path, ¬ q <+: done ++ todo → fs2.lookup q = fs.lookup q := by
  intro todo
  induction todo with
  | nil =>
    intro done fs fs2 h q _
    simp only [osMakedirsAux] at h
    cases h
    rfl
  | cons c rest ih =>
    intro done fs fs2 h q hq
    rw [osMakedirsAux] at h
    split at h
    · refine ih (done ++ [c]) fs fs2 h q ?_
      intro hpre
      exact hq (by simpa [List.append_assoc] using hpre)
    · exact absurd h (by simp)
    · split at h
      · have hne : q ≠ done ++ [c] := by
          intro he
          exact hq (he ▸ ⟨rest, by simp⟩)
        have h2 := ih (done ++ [c]) _ fs2 h q (by
          intro hpre
          exact hq (by simpa [List.append_assoc] using hpre))
        have hne2 : done ++ [c] ≠ q := fun he => hne he.symm
        rw [h2, lookup_insert, if_neg hne2]
      · exact absurd h (by simp)

/-- `os.makedirs p` changes no binding outside the prefixes of `p`. -/
theorem osMakedirs_lookup (fs fs2 : FS) (p : Path) (h : osMakedirs fs p = .ok fs2)
    (q : Path) (hq : ¬ q <+: p) : fs2.lookup q = fs.lookup q := by
  rw [osMakedirs] at h
  split at h
  · exact absurd h (by simp)
  · exact osMakedirsAux_lookup p [] fs fs2 h q (by simpa using hq)

/-- The script's `makedirs` changes no binding outside the prefixes of its
argument. -/
theorem makedirsScript_lookup (st : St) (p : Path) (q : Path) (hq : ¬ q <+: p) :
    ((makedirsScript st p).1).st.fs.lookup q = st.fs.lookup q := by
  rw [makedirsScript]
  split
  · next fs2 h => exact osMakedirs_lookup st.fs fs2 p h q hq
  · next e h =>
    split
    · split <;> rfl
    · rfl

/-- A successful `os.link` changes no binding except at the new name. -/
theorem osLink_lookup (fs fs2 : FS) (src dst : Path) (h : osLink fs src dst = .ok fs2)
    (q : Path) (hq : q ≠ dst) : fs2.lookup q = fs.lookup q := by
  rw [osLink] at h
  split at h
  · exact absurd h (by simp)
  · split at h
    · cases h
      have hne2 : dst ≠ q := fun he => hq he.symm
      rw [lookup_insert, if_neg hne2]
    · exact absurd h (by simp)

/-- The script's `link` changes no binding except at the destination. -/
theorem pyLink_lookup (st : St) (src dst : Path) (force : Bool) (q : Path) (hq : q ≠ dst) :
    (pyLink st src dst force).st.fs.lookup q = st.fs.lookup q := by
  rw [pyLink]
  split
  · next fs2 h => exact osLink_lookup st.fs fs2 src dst h q hq
  · next e h =>
    have hne2 : dst ≠ q := fun he => hq he.symm
    split
    · split
      · show (match osLink (st.fs.remove dst) src dst with
          | Except.ok fs2 => R.mk .ok ⟨fs2, st.warns⟩
          | Except.error e2 =>
            R.mk (.fatal (.os e2)) ⟨st.fs.remove dst, st.warns⟩).st.fs.lookup q =
          st.fs.lookup q
        rcases hosl : osLink (st.fs.remove dst) src dst with e2 | fs2
        · show (st.fs.remove dst).lookup q = st.fs.lookup q
          rw [lookup_remove, if_neg hne2]
        · show fs2.lookup q = st.fs.lookup q
          rw [osLink_lookup (st.fs.remove dst) fs2 src dst hosl q hq, lookup_remove,
            if_neg hne2]
      · rfl
    · rfl

/-- The directory loop of the walk changes no binding at a path apart from
the destination. -/
theorem dirsLoop_lookup (dst rel : Path) (q : Path) (hq : Apart dst q) :
    ∀ (ds : List String) (st : St),
      (dirsLoop dst rel st ds).st.fs.lookup q = st.fs.lookup q := by
  intro ds
  induction ds with
  | nil => intro st; rfl
  | cons d rest ih =>
    intro st
    have hne : (dst ++ rel) ++ [d] ≠ q := by
      intro he
      exact apart_ne_append dst q hq (rel ++ [d]) (by rw [← he, List.append_assoc])
    have hnp : ¬ q <+: (dst ++ rel) ++ [d] := by
      rw [List.append_assoc]
      exact apart_not_prefix_append dst q hq (rel ++ [d])
    simp only [dirsLoop]
    have hA : (if isdirF st.fs (dst ++ rel ++ [d]) && islinkF st.fs (dst ++ rel ++ [d]) then
        St.mk (st.fs.remove (dst ++ rel ++ [d])) st.warns else st).fs.lookup q =
        st.fs.lookup q := by
      split
      · show (st.fs.remove ((dst ++ rel) ++ [d])).lookup q = st.fs.lookup q
        rw [lookup_remove, if_neg hne]
      · rfl
    set stA := (if isdirF st.fs (dst ++ rel ++ [d]) && islinkF st.fs (dst ++ rel ++ [d]) then
        St.mk (st.fs.remove (dst ++ rel ++ [d])) st.warns else st) with hstA
    have hm : ((makedirsScript stA (dst ++ rel ++ [d])).1).st.fs.lookup q =
        stA.fs.lookup q := makedirsScript_lookup stA _ q hnp
    rcases ho : (makedirsScript stA (dst ++ rel ++ [d])).1.out with _ | e
    · simp only [ho]
      rw [ih, hm, hA]
    · simp only [ho]
      rw [hm, hA]

/-- The file loop of the walk changes no binding at a path apart from the
destination. -/
theorem filesLoop_lookup (src dst rel : Path) (force : Bool) (q : Path) (hq : Apart dst q) :
    ∀ (fl : List String) (st : St),
      (filesLoop src dst rel force st fl).st.fs.lookup q = st.fs.lookup q := by
  intro fl
  induction fl with
  | nil => intro st; rfl
  | cons f rest ih =>
    intro st
    have hne : (dst ++ rel) ++ [f] ≠ q := by
      intro he
      exact apart_ne_append dst q hq (rel ++ [f]) (by rw [← he, List.append_assoc])
    have hnp : ¬ q <+: ((dst ++ rel) ++ [f]).dropLast := by
      rw [List.dropLast_concat]
      exact apart_not_prefix_append dst q hq rel
    simp only [filesLoop]
    split
    · rw [ih]
    · split
      · rw [ih]
      · split
        · rw [ih]
        · have hA : (if isfileF st.fs (dst ++ rel ++ [f]) && islinkF st.fs (dst ++ rel ++ [f])
              then St.mk (st.fs.remove (dst ++ rel ++ [f])) st.warns else st).fs.lookup q =
              st.fs.lookup q := by
            split
            · show (st.fs.remove ((dst ++ rel) ++ [f])).lookup q = st.fs.lookup q
              rw [lookup_remove, if_neg hne]
            · rfl
          set stA := (if isfileF st.fs (dst ++ rel ++ [f]) && islinkF st.fs (dst ++ rel ++ [f])
              then St.mk (st.fs.remove (dst ++ rel ++ [f])) st.warns else st) with hstA
          have hm : ((makedirsScript stA ((dst ++ rel ++ [f]).dropLast)).1).st.fs.lookup q =
              stA.fs.lookup q := makedirsScript_lookup stA _ q hnp
          rcases ho : (makedirsScript stA ((dst ++ rel ++ [f]).dropLast)).1.out with _ | e
          · simp only [ho]
            have hpl := pyLink_lookup ((makedirsScript stA ((dst ++ rel ++ [f]).dropLast)).1.st)
              (st.fs.realpath (src ++ rel ++ [f])) (dst ++ rel ++ [f]) force q
              (fun he => hne he.symm)
            rcases hpo : (pyLink ((makedirsScript stA ((dst ++ rel ++ [f]).dropLast)).1.st)
                (st.fs.realpath (src ++ rel ++ [f])) (dst ++ rel ++ [f]) force).out with _ | e2
            · simp only [hpo]
              rw [ih, hpl, hm, hA]
            · simp only [hpo]
              rw [hpl, hm, hA]
          · simp only [ho]
            rw [hm, hA]

/-- The whole walk changes no binding at a path apart from the
destination. -/
theorem walkGo_lookup (src dst : Path) (force : Bool) (q : Path) (hq : Apart dst q) :
    ∀ (fuel : Nat) (job : Job) (st : St),
      (walkGo src dst force fuel st job).st.fs.lookup q = st.fs.lookup q := by
  intro fuel
  induction fuel with
  | zero => intro job st; rfl
  | succ fuel ih =>
    intro job st
    match job with
    | .childs rel [] => rfl
    | .childs rel (d :: rest) =>
      simp only [walkGo]
      rcases ho : (walkGo src dst force fuel st (.enter (rel ++ [d]))).out with _ | e
      · simp only [ho]
        rw [ih, ih]
      · simp only [ho]
        rw [ih]
    | .enter rel =>
      simp only [walkGo]
      have hd := dirsLoop_lookup dst rel q hq
      have hf := filesLoop_lookup src dst rel force q hq
      rcases h1 : (dirsLoop dst rel st (List.filter (fun n => isdirF st.fs (src ++ rel ++ [n]))
          (childNames st.fs (src ++ rel)))).out with _ | e
      · simp only [h1]
        rcases h2 : (filesLoop src dst rel force
            (dirsLoop dst rel st (List.filter (fun n => isdirF st.fs (src ++ rel ++ [n]))
              (childNames st.fs (src ++ rel)))).st
            (List.filter (fun n => !isdirF st.fs (src ++ rel ++ [n]))
              (childNames st.fs (src ++ rel)))).out with _ | e2
        · simp only [h2]
          rw [ih, hf, hd]
        · simp only [h2]
          rw [hf, hd]
      · simp only [h1]
        rw [hd]

/-- C9 amended: when neither of source and destination lies inside the
other's subtree, the merge — whatever its outcome, including a truncated
or aborted run — changes no binding at any path inside the source tree:
source data is only read or hard-linked. -/
theorem c9_source_unchanged (fuel : Nat) (st : St) (src dst : Path) (force : Bool)
    (h1 : ¬ src <+: dst) (h2 : ¬ dst <+: src) :
    ∀ q : Path, src <+: q →
      (pyHardlink fuel st src dst force).st.fs.lookup q = st.fs.lookup q := by
  intro q hsq
  have hq : Apart dst q := by
    constructor
    · intro hd
      rcases List.prefix_or_prefix_of_prefix hd hsq with h | h
      · exact h2 h
      · exact h1 h
    · intro hqd
      exact h1 (hsq.trans hqd)
  have hqd : ¬ q <+: dst := hq.2
  have hqdne : q ≠ dst := by
    intro he
    exact hq.1 (by rw [he])
  rw [pyHardlink]
  split
  · rfl
  · set r1 := (if isdirF st.fs src then
      (if isfileF st.fs dst then R.mk (.fatal (.exit1 (.cannotReplaceFileWithDir dst))) st
        else walkGo src dst force fuel st (.enter []))
      else R.mk .ok st) with hr1def
    have hr1 : r1.st.fs.lookup q = st.fs.lookup q := by
      rw [hr1def]
      split
      · split
        · rfl
        · exact walkGo_lookup src dst force q hq fuel (.enter []) st
      · rfl
    rcases ho : r1.out with _ | e
    · simp only [ho]
      split
      · split
        · exact hr1
        · have hnp : ¬ q <+: dst.dropLast := by
            intro hp
            exact hqd (hp.trans dst.dropLast_prefix)
          have hm := makedirsScript_lookup r1.st dst.dropLast q hnp
          rcases hmo : (makedirsScript r1.st dst.dropLast).1.out with _ | e2
          · simp only [hmo]
            rw [pyLink_lookup _ src dst force q (fun he => hqdne he), hm, hr1]
          · simp only [hmo]
            rw [hm, hr1]
      · exact hr1
    · simp only [ho]
      exact hr1

/-- C4: when the destination exists as a regular file and force is set,
the destination is removed and the link retried; a retry that fails
(here: the source lives on a different device than the destination's
directory) propagates and is fatal for the whole merge, with the
destination left removed. -/
theorem c4_forced_retry_fatal (fuel : Nat) (st : St) (src dst : Path)
    (sd si dd di pd : Nat)
    (hsrc : st.fs.lookup src = some (.file sd si))
    (hdst : st.fs.lookup dst = some (.file dd di))
    (hpar : st.fs.lookup dst.dropLast = some (.dir pd))
    (hdev : sd ≠ pd) (hne : src ≠ dst) (hdne : dst ≠ []) :
    (pyHardlink fuel st src dst true).out = .fatal (.os .EXDEV) ∧
      (pyHardlink fuel st src dst true).st.fs.lookup dst = none := by
  have hex : existsF st.fs src = true := by
    simp [existsF, FS.resolve, resolveN, hsrc]
  have hdir : isdirF st.fs src = false := by
    simp [isdirF, FS.resolve, resolveN, hsrc]
  have hfile : isfileF st.fs src = true := by
    simp [isfileF, FS.resolve, resolveN, hsrc]
  have hdstdir : isdirF st.fs dst = false := by
    simp [isdirF, FS.resolve, resolveN, hdst]
  have hpdir : isdirF st.fs dst.dropLast = true := by
    simp [isdirF, FS.resolve, resolveN, hpar]
  have hmk : makedirsScript st dst.dropLast = (⟨.ok, st⟩, false) := by
    simp [makedirsScript, osMakedirs, hpar, hpdir]
  have hl1 : (st.fs.remove dst).lookup dst = none := by
    rw [lookup_remove]
    simp
  have hl2 : (st.fs.remove dst).lookup src = some (.file sd si) := by
    rw [lookup_remove, if_neg (fun he => hne he.symm)]
    exact hsrc
  have hl3 : (st.fs.remove dst).lookup dst.dropLast = some (.dir pd) := by
    rw [lookup_remove, if_neg (fun he => (dropLast_ne_self dst hdne) he.symm)]
    exact hpar
  have hpl : pyLink st src dst true = ⟨.fatal (.os .EXDEV), st.fs.remove dst, st.warns⟩ := by
    simp [pyLink, osLink, linkNode, hdst, hl1, hl2, hl3, FS.resolve, resolveN, hdev]
  rw [pyHardlink]
  simp [hex, hdir, hfile, hdstdir, hmk, hpl, hl1]

/-- C5: when the destination exists as a regular file and force is not
set, the whole merge of a source file finishes without error, the
filesystem — in particular the destination's content — is unchanged, and
an already-exists warning is emitted. -/
theorem c5_collision_no_force (fuel : Nat) (st : St) (src dst : Path)
    (sd si dd di pd : Nat)
    (hsrc : st.fs.lookup src = some (.file sd si))
    (hdst : st.fs.lookup dst = some (.file dd di))
    (hpar : st.fs.lookup dst.dropLast = some (.dir pd)) :
    pyHardlink fuel st src dst false = ⟨.ok, st.fs, st.warns ++ [.alreadyExists dst]⟩ := by
  have hex : existsF st.fs src = true := by
    simp [existsF, FS.resolve, resolveN, hsrc]
  have hdir : isdirF st.fs src = false := by
    simp [isdirF, FS.resolve, resolveN, hsrc]
  have hfile : isfileF st.fs src = true := by
    simp [isfileF, FS.resolve, resolveN, hsrc]
  have hdstdir : isdirF st.fs dst = false := by
    simp [isdirF, FS.resolve, resolveN, hdst]
  have hpdir : isdirF st.fs dst.dropLast = true := by
    simp [isdirF, FS.resolve, resolveN, hpar]
  have hmk : makedirsScript st dst.dropLast = (⟨.ok, st⟩, false) := by
    simp [makedirsScript, osMakedirs, hpar, hpdir]
  have hpl : pyLink st src dst false = ⟨.ok, st.fs, st.warns ++ [.alreadyExists dst]⟩ := by
    simp [pyLink, osLink, hdst]
  rw [pyHardlink]
  simp [hex, hdir, hfile, hdstdir, hmk, hpl]

/-- C8: on the concrete tree where the destination subdirectory `/d/x` is
blocked by a plain file, the merge of `/s` into `/d` emits the
cannot-replace warning and links nothing (the filesystem is unchanged),
but then aborts fatally with ENOTDIR from `os.link` on the first file
under the blocked subtree — the subtree is not skipped gracefully, because
the `makedirs` failure flag is ignored by its callers. -/
theorem c8_blocked_subtree_fatal :
    (pyHardlink 10 ⟨c8fs, []⟩ ["s"] ["d"] true).out = .fatal (.os .ENOTDIR) ∧
      Msg.cannotReplaceFileWithDir ["d", "x"] ∈
        (pyHardlink 10 ⟨c8fs, []⟩ ["s"] ["d"] true).st.warns ∧
      (pyHardlink 10 ⟨c8fs, []⟩ ["s"] ["d"] true).st.fs = c8fs := by
  decide

/-- C9 counterexample: merging the regular file `/a/f` onto itself with
force set removes the source file (the file branch has no self-link
guard: EEXIST triggers removal of the destination — which is the source —
and the retry then fails with ENOENT), so a merge can destroy a path
inside the source tree. -/
theorem c9_counterexample :
    c9fs.lookup ["a", "f"] = some (.file 0 1) ∧
      (pyHardlink 5 ⟨c9fs, []⟩ ["a", "f"] ["a", "f"] true).st.fs.lookup ["a", "f"] = none ∧
      (pyHardlink 5 ⟨c9fs, []⟩ ["a", "f"] ["a", "f"] true).out = .fatal (.os .ENOENT) := by
  decide

/-- C9 witness: on disjoint source and destination trees the source
binding is untouched by a forced merge. -/
theorem c9_source_unchanged_witness :
    (¬ ["s"] <+: (["d"] : Path)) ∧ (¬ ["d"] <+: (["s"] : Path)) ∧
      (pyHardlink 5 ⟨c9wfs, []⟩ ["s"] ["d"] true).st.fs.lookup ["s", "f"] =
        FS.lookup c9wfs ["s", "f"] :=
  ⟨by decide, by decide,
    c9_source_unchanged 5 ⟨c9wfs, []⟩ ["s"] ["d"] true (by decide) (by decide)
      ["s", "f"] (by decide)⟩

/-- C4 witness: the forced cross-device retry at a concrete filesystem. -/
theorem c4_forced_retry_fatal_witness :
    c4fs.lookup ["d", "g"] = some (.file 0 8) ∧
      (pyHardlink 5 ⟨c4fs, []⟩ ["m", "f"] ["d", "g"] true).out = .fatal (.os .EXDEV) :=
  ⟨by decide,
    (c4_forced_retry_fatal 5 ⟨c4fs, []⟩ ["m", "f"] ["d", "g"] 1 7 0 8 0
      (by decide) (by decide) (by decide) (by decide) (by decide) (by decide)).1⟩

/-- C5 witness: the unforced collision at a concrete filesystem. -/
theorem c5_collision_no_force_witness :
    c5fs.lookup ["d", "b"] = some (.file 0 2) ∧
      pyHardlink 5 ⟨c5fs, []⟩ ["a"] ["d", "b"] false =
        ⟨.ok, c5fs, [.alreadyExists ["d", "b"]]⟩ :=
  ⟨by decide,
    c5_collision_no_force 5 ⟨c5fs, []⟩ ["a"] ["d", "b"] 0 1 0 2 0
      (by decide) (by decide) (by decide)⟩

end Hardlink
